import Mathlib

/-!
Shallow embedding of the txt2epub converter (src/txt2epub/txt2epub.py,
Txt2Epub.create_epub) and verification of its specification.

Text is modelled as List Char (one Python str character per list entry).
Python exceptions (IndexError from list indexing / pop on an empty list,
ValueError from splitting on an empty separator) are modelled by Except.
-/

deriving instance DecidableEq for Except

namespace Txt2Epub

/-- Model of Python str.split(sep) for a non-empty separator sep: scan left to
right, cutting at each leftmost non-overlapping occurrence of sep.  The fuel
argument (instantiated with the length of the scanned text, an upper bound on
the number of steps) makes the recursion structural.  An empty separator never
cuts here; the caller (create_epub) treats that case as a ValueError before
ever calling split, mirroring Python. -/
def pySplitFuel (sep : List Char) : Nat → List Char → List Char → List (List Char)
  | 0, acc, s => [acc.reverse ++ s]
  | _ + 1, acc, [] => [acc.reverse]
  | f + 1, acc, c :: cs =>
    if sep.isPrefixOf (c :: cs) = true ∧ sep ≠ [] then
      acc.reverse :: pySplitFuel sep f [] (cs.drop (sep.length - 1))
    else
      pySplitFuel sep f (c :: acc) cs

/-- Python str.split(sep) (sep non-empty): always returns at least one block. -/
def pySplit (sep s : List Char) : List (List Char) :=
  pySplitFuel sep s.length [] s

/-- The separator used at line 46 of the source: "\n" * linebreaks. -/
def newlines (n : Nat) : List Char :=
  List.replicate n '\n'

/-- Python s.lstrip("\n"): drop leading newline characters. -/
def lstripNl (s : List Char) : List Char :=
  s.dropWhile (fun c => c == '\n')

/-- Whitespace characters stripped by Python str.lstrip() with no argument
(ASCII whitespace; the inputs handled here contain no exotic Unicode space). -/
def pyIsSpace (c : Char) : Bool :=
  c == ' ' || c == '\t' || c == '\n' || c == '\r' || c == '\x0b' || c == '\x0c'

/-- Python line.lstrip(): drop leading whitespace. -/
def lstripWs (s : List Char) : List Char :=
  s.dropWhile pyIsSpace

/-- Python block.split("\n"). -/
def splitLines (s : List Char) : List (List Char) :=
  pySplit ['\n'] s

/-- Whether an occurrence of sep starts at some position of s (including the
position at the very end when sep is empty). -/
def occursIn (sep : List Char) : List Char → Bool
  | [] => sep.isPrefixOf []
  | c :: cs => sep.isPrefixOf (c :: cs) || occursIn sep cs

/-- Model of re.match(r"^={3,}", s): succeeds iff s starts with at least
three equal-sign characters (source line 92, section-mode detection). -/
def startsWithEq3 (s : List Char) : Bool :=
  (List.replicate 3 '=').isPrefixOf s

/-- Model of re.match(r"^={3,}$", s) on a string without newlines: s consists
solely of equal signs and has length at least three (source line 107). -/
def isMarkerLine (s : List Char) : Bool :=
  decide (3 ≤ s.length) && s.all (fun c => c == '=')

/-- A content document produced by the converter: models ebooklib EpubHtml
restricted to the fields create_epub sets (title, file_name, lang, content). -/
structure EpubHtml where
  title : List Char
  file_name : List Char
  lang : List Char
  content : List Char
deriving DecidableEq, Repr

/-- One entry of the spine list built at source line 98: either the literal
string "nav" or an EpubHtml page. -/
inductive SpineItem where
  | nav : SpineItem
  | page : EpubHtml → SpineItem
deriving DecidableEq, Repr

/-- One entry of the toc list: a bare chapter (flat mode), a two-element
Python list [section, [chapters...]] (section mode), or the empty Python list
(appended at line 149 when current_section is still empty). -/
inductive TocEntry where
  | chap : EpubHtml → TocEntry
  | sec : EpubHtml → List EpubHtml → TocEntry
  | emptyList : TocEntry
deriving DecidableEq, Repr

/-- Python exceptions relevant to this code path. -/
inductive PyError where
  | indexError : PyError
  | valueError : PyError
deriving DecidableEq, Repr

/-- Python "chap_{:02d}".format piece: decimal digits zero-padded to width
two. -/
def format02 (k : Nat) : List Char :=
  let ds := (Nat.repr k).data
  List.replicate (2 - ds.length) '0' ++ ds

/-- File name "chap_NN.xhtml" given the 1-based chapter number (source lines
115 and 131). -/
def chapFileName (k : Nat) : List Char :=
  "chap_".data ++ format02 k ++ ".xhtml".data

/-- One paragraph: "<p>{}</p>".format(line.lstrip()). -/
def pTag (line : List Char) : List Char :=
  "<p>".data ++ lstripWs line ++ "</p>".data

/-- "".join of the paragraph tags of a list of lines. -/
def paragraphs (ls : List (List Char)) : List Char :=
  (ls.map pTag).flatten

/-- Content of the message page (source lines 80-85). -/
def messageHtml (blk : List Char) : List Char :=
  "<div>".data ++ paragraphs (splitLines blk) ++ "</div>".data

/-- Content of a chapter page (source lines 135-138). -/
def chapterHtml (t : List Char) (body : List (List Char)) : List Char :=
  "<h2>".data ++ t ++ "</h2><div>".data ++ paragraphs body ++ "</div>".data

/-- Content of a section page (source line 121). -/
def sectionHtml (t : List Char) : List Char :=
  "<h1>".data ++ t ++ "</h1>".data

/-- Content of the info page (source line 70). -/
def infoHtml (t a : List Char) : List Char :=
  "<h1>".data ++ t ++ "</h1><h2>".data ++ a ++ "</h2>".data

/-- The info page (source lines 64-71). -/
def infoPage (book_title book_author book_language : List Char) : EpubHtml :=
  ⟨"Info".data, "info.xhtml".data, book_language, infoHtml book_title book_author⟩

/-- The message (preamble) page (source lines 74-86). -/
def messagePage (book_language blk : List Char) : EpubHtml :=
  ⟨"Message".data, "message.xhtml".data, book_language, messageHtml blk⟩

/-- Model of the loop at source lines 111-112: pop leading empty lines and
return the first non-empty one; popping an exhausted list raises IndexError
(modelled as none). -/
def findSectionTitle : List (List Char) → Option (List Char)
  | [] => none
  | l :: ls => if l = [] then findSectionTitle ls else some l

/-- The chapter-creation loop (source lines 101-146).  Arguments: resolved
language, the document-wide use_section flag, the enumerate counter
chapter_id, the current_section accumulator (none models the empty Python
list, some (s, chs) models [s, chs]), and the remaining blocks.  Returns the
spine entries and toc entries this loop appends, plus the final value of
current_section; IndexError aborts everything, as a Python exception would. -/
def buildChapters (lang : List Char) (use_section : Bool) :
    Nat → Option (EpubHtml × List EpubHtml) → List (List Char) →
    Except PyError (List SpineItem × List TocEntry × Option (EpubHtml × List EpubHtml))
  | _, cur, [] => .ok ([], [], cur)
  | chapter_id, cur, blk :: blks =>
    let chapter_lines := splitLines (lstripNl blk)
    let chapter_title := chapter_lines.headD []
    let chapter_content := chapter_lines.tail
    if use_section && isMarkerLine chapter_title then
      let tocFlush : List TocEntry :=
        match cur with
        | some (s, chs) => [.sec s chs]
        | none => []
      match findSectionTitle chapter_content with
      | none => .error .indexError
      | some section_title =>
        let sec : EpubHtml :=
          ⟨section_title, chapFileName (chapter_id + 1), lang, sectionHtml section_title⟩
        match buildChapters lang use_section (chapter_id + 1) (some (sec, [])) blks with
        | .ok (sp, tc, fin) => .ok (.page sec :: sp, tocFlush ++ tc, fin)
        | .error e => .error e
    else
      let chap : EpubHtml :=
        ⟨chapter_title, chapFileName (chapter_id + 1), lang,
          chapterHtml chapter_title chapter_content⟩
      if use_section then
        match cur with
        | none => .error .indexError
        | some (s, chs) =>
          match buildChapters lang use_section (chapter_id + 1) (some (s, chs ++ [chap])) blks with
          | .ok (sp, tc, fin) => .ok (.page chap :: sp, tc, fin)
          | .error e => .error e
      else
        match buildChapters lang use_section (chapter_id + 1) cur blks with
        | .ok (sp, tc, fin) => .ok (.page chap :: sp, .chap chap :: tc, fin)
        | .error e => .error e

/-- The final toc.append(current_section) of source line 149. -/
def curToToc : Option (EpubHtml × List EpubHtml) → TocEntry
  | none => .emptyList
  | some (s, chs) => .sec s chs

/-- The observable output of one conversion: the message page, the global
section flag, the spine and the toc handed to the container writer. -/
structure BookOutput where
  message : EpubHtml
  use_section : Bool
  spine : List SpineItem
  toc : List TocEntry
deriving DecidableEq, Repr

/-- The core of Txt2Epub.create_epub (source lines 46-153) after metadata
resolution: split the text on "\n" * linebreaks, pop the first block as the
message page, decide section mode from the first remaining block, run the
chapter loop, and assemble spine and toc.  linebreaks = 0 raises ValueError
(empty separator); a missing first remaining block raises IndexError at the
section-mode check of line 92. -/
def create_epub (book_title book_author book_language : List Char)
    (linebreaks : Nat) (book_text : List Char) : Except PyError BookOutput :=
  if linebreaks = 0 then .error .valueError else
  let chapters := pySplit (newlines linebreaks) book_text
  match chapters with
  | [] => .error .indexError
  | first :: rest =>
    let message := messagePage book_language first
    match rest with
    | [] => .error .indexError
    | b :: _ =>
      let use_section := startsWithEq3 (lstripNl b)
      match buildChapters book_language use_section 0 none rest with
      | .error e => .error e
      | .ok (sp, tc, fin) =>
        let toc := if use_section then tc ++ [curToToc fin] else tc
        .ok ⟨message, use_section,
          .page (infoPage book_title book_author book_language) :: .page message :: .nav :: sp,
          toc⟩

/-- Python truthiness choice a or b for an optional string a: None and the
empty string both fall through to b. -/
def pyOr (a : Option (List Char)) (b : List Char) : List Char :=
  match a with
  | none => b
  | some s => if s = [] then b else s

/-- Tail test of the stem regex: does r match (.*?)\)$ given that the dot
does not match a newline, i.e. is r of the form B ++ [closing parenthesis]
with B newline-free?  Returns B on success. -/
def matchTail (r : List Char) : Option (List Char) :=
  if r.getLast? = some ')' ∧ '\n' ∉ r.dropLast then some r.dropLast else none

/-- Backtracking scan of re.match on the pattern of source line 28: group 1
is non-greedy, so the match uses the first opening parenthesis from which the
tail pattern succeeds; a newline stops the scan (the dot does not match it). -/
def stemScan (pre : List Char) : List Char → Option (List Char × List Char)
  | [] => none
  | c :: r =>
    match (if c = '(' then matchTail r else none) with
    | some b => some (pre.reverse, b)
    | none => if c = '\n' then none else stemScan (c :: pre) r

/-- Model of re.match(r"^(.*?)\((.*?)\)$", stem): the dollar anchor also
matches just before a single trailing newline, hence the dropLast
preprocessing. -/
def stemMatch (stem : List Char) : Option (List Char × List Char) :=
  stemScan [] (if stem.getLast? = some '\n' then stem.dropLast else stem)

/-- Title/author resolution of source lines 28-33. -/
def resolve_title_author (stem : List Char) (book_title book_author : Option (List Char)) :
    List Char × List Char :=
  match stemMatch stem with
  | some (t, a) => (pyOr book_title t, pyOr book_author a)
  | none => (pyOr book_title stem, pyOr book_author "Unknown".data)

/-- Language resolution of source lines 40-43: a truthy explicit language is
kept (the detector is then never invoked); otherwise the detector result is
used, and a detector failure (detected = none, the LangDetectException case)
falls back to "en" without surfacing the failure. -/
def resolve_language (book_language : Option (List Char)) (detected : Option (List Char)) :
    List Char :=
  match book_language with
  | some s =>
    if s = [] then (match detected with | some l => l | none => "en".data) else s
  | none => match detected with | some l => l | none => "en".data

/-- Pages of a spine in order, skipping the "nav" placeholder. -/
def spinePages : List SpineItem → List EpubHtml
  | [] => []
  | .nav :: xs => spinePages xs
  | .page h :: xs => h :: spinePages xs

/-- Nodes of a toc in order: a section contributes itself and then its
children, matching the order in which those pages entered the spine. -/
def tocNodes : List TocEntry → List EpubHtml
  | [] => []
  | .chap c :: es => c :: tocNodes es
  | .sec s chs :: es => s :: (chs ++ tocNodes es)
  | .emptyList :: es => tocNodes es

/-- Nodes held by the current_section accumulator. -/
def curNodes : Option (EpubHtml × List EpubHtml) → List EpubHtml
  | none => []
  | some (s, chs) => s :: chs

/-- Concrete flat-mode sample document (the scenario of the spec). -/
def flatDoc : List Char :=
  "Hello\n\n\nChapter One\nLine A\nLine B\n\n\nChapter Two\nLine C".data

/-- First chapter node of flatDoc. -/
def flatChapterOne : EpubHtml :=
  ⟨"Chapter One".data, "chap_01.xhtml".data, "en".data,
    chapterHtml "Chapter One".data ["Line A".data, "Line B".data]⟩

/-- Second chapter node of flatDoc. -/
def flatChapterTwo : EpubHtml :=
  ⟨"Chapter Two".data, "chap_02.xhtml".data, "en".data,
    chapterHtml "Chapter Two".data ["Line C".data]⟩

/-- The full conversion output for flatDoc with title T, author A and
language en. -/
def flatOut : BookOutput :=
  ⟨messagePage "en".data "Hello".data, false,
    [.page (infoPage "T".data "A".data "en".data),
      .page (messagePage "en".data "Hello".data), .nav,
      .page flatChapterOne, .page flatChapterTwo],
    [.chap flatChapterOne, .chap flatChapterTwo]⟩

/-- Concrete section-mode sample document: the first post-preamble block
opens with a line of five equal signs. -/
def secDoc : List Char :=
  "Pre\n\n\n=====\nAlpha\n\n\nChapterX\nBody".data

/-- Section node of secDoc. -/
def secAlpha : EpubHtml :=
  ⟨"Alpha".data, "chap_01.xhtml".data, "en".data, sectionHtml "Alpha".data⟩

/-- Chapter node of secDoc. -/
def secChapterX : EpubHtml :=
  ⟨"ChapterX".data, "chap_02.xhtml".data, "en".data,
    chapterHtml "ChapterX".data ["Body".data]⟩

/-- The full conversion output for secDoc with title T, author A and
language en. -/
def secOut : BookOutput :=
  ⟨messagePage "en".data "Pre".data, true,
    [.page (infoPage "T".data "A".data "en".data),
      .page (messagePage "en".data "Pre".data), .nav,
      .page secAlpha, .page secChapterX],
    [.sec secAlpha [secChapterX]]⟩

/-! Helper lemmas about the splitting scan. -/

lemma newlines_succ (n : Nat) : newlines (n + 1) = '\n' :: newlines n := by
  simp [newlines, List.replicate_succ]

lemma newlines_length (n : Nat) : (newlines n).length = n := by
  simp [newlines]

lemma newlines_ne_nil {n : Nat} (hn : 0 < n) : newlines n ≠ [] := by
  cases n with
  | zero => exact absurd hn (by simp)
  | succ m => simp [newlines_succ]

lemma count_ge_of_newlines_isPrefixOf :
    ∀ (n : Nat) (t : List Char), (newlines n).isPrefixOf t = true → n ≤ List.count '\n' t := by
  intro n
  induction n with
  | zero => intro t _; exact Nat.zero_le _
  | succ m ih =>
    intro t h
    rw [newlines_succ] at h
    cases t with
    | nil => simp [List.isPrefixOf] at h
    | cons c cs =>
      simp only [List.isPrefixOf, Bool.and_eq_true, beq_iff_eq] at h
      obtain ⟨hc, hp⟩ := h
      subst hc
      have := ih cs hp
      simp [List.count_cons]
      omega

lemma occursIn_newlines_eq_false_of_count {n : Nat} :
    ∀ (s : List Char), List.count '\n' s < n → occursIn (newlines n) s = false := by
  intro s
  induction s with
  | nil =>
    intro h
    have h0 : 0 < n := by simpa using h
    simp only [occursIn]
    cases hne : (newlines n).isPrefixOf ([] : List Char) with
    | false => rfl
    | true =>
      have := count_ge_of_newlines_isPrefixOf n [] hne
      simp only [List.count_nil] at this
      omega
  | cons c cs ih =>
    intro h
    have hcc : List.count '\n' cs ≤ List.count '\n' (c :: cs) := by
      rw [List.count_cons]
      split <;> omega
    simp only [occursIn, Bool.or_eq_false_iff]
    refine ⟨?_, ih (by omega)⟩
    cases hne : (newlines n).isPrefixOf (c :: cs) with
    | false => rfl
    | true =>
      have := count_ge_of_newlines_isPrefixOf n (c :: cs) hne
      omega

lemma pySplitFuel_of_occursIn_false (sep : List Char) :
    ∀ (s : List Char) (f : Nat) (acc : List Char), s.length ≤ f →
      occursIn sep s = false → pySplitFuel sep f acc s = [acc.reverse ++ s] := by
  intro s
  induction s with
  | nil =>
    intro f acc _ _
    cases f with
    | zero => simp [pySplitFuel]
    | succ m => simp [pySplitFuel]
  | cons c cs ih =>
    intro f acc hf hocc
    cases f with
    | zero => simp at hf
    | succ m =>
      simp only [occursIn, Bool.or_eq_false_iff] at hocc
      simp only [pySplitFuel]
      rw [if_neg (by simp [hocc.1])]
      rw [ih m (c :: acc) (by simpa using hf) hocc.2]
      simp

lemma pySplitFuel_nil_sep : ∀ (s : List Char) (f : Nat) (acc : List Char),
    s.length ≤ f → pySplitFuel [] f acc s = [acc.reverse ++ s] := by
  intro s
  induction s with
  | nil =>
    intro f acc _
    cases f with
    | zero => simp [pySplitFuel]
    | succ m => simp [pySplitFuel]
  | cons c cs ih =>
    intro f acc hf
    cases f with
    | zero => simp at hf
    | succ m =>
      simp only [pySplitFuel]
      rw [if_neg (by simp)]
      rw [ih m (c :: acc) (by simpa using hf)]
      simp

/-- Splitting on the empty separator never cuts in this model (Python raises
ValueError there before this point). -/
lemma pySplit_nil_sep (s : List Char) : pySplit [] s = [s] := by
  unfold pySplit
  rw [pySplitFuel_nil_sep s s.length [] le_rfl]
  simp

/-- The scan consumes a newline-free chunk a, then cuts at the occurrence of
the separator that starts right after it. -/
lemma pySplitFuel_scan {n : Nat} (hn : 0 < n) :
    ∀ (a : List Char) (rest : List Char) (f : Nat) (acc : List Char), '\n' ∉ a →
      (newlines n).isPrefixOf rest = true → a.length + rest.length ≤ f →
      pySplitFuel (newlines n) f acc (a ++ rest)
        = (acc.reverse ++ a) :: pySplitFuel (newlines n) (f - a.length - 1) [] (rest.drop n) := by
  intro a
  induction a with
  | nil =>
    intro rest f acc _ hp hf
    obtain ⟨m, rfl⟩ : ∃ m, n = m + 1 := ⟨n - 1, by omega⟩
    cases rest with
    | nil => rw [newlines_succ] at hp; simp [List.isPrefixOf] at hp
    | cons c cs =>
      cases f with
      | zero => simp at hf
      | succ g =>
        simp only [List.nil_append, pySplitFuel]
        rw [if_pos ⟨hp, newlines_ne_nil (by omega)⟩]
        simp [newlines_length, List.drop_succ_cons]
  | cons x xs ih =>
    intro rest f acc hx hp hf
    have hxn : x ≠ '\n' := by
      intro hcontra; exact hx (by simp [hcontra])
    have hxs : '\n' ∉ xs := fun hmem => hx (by simp [hmem])
    cases f with
    | zero => simp at hf
    | succ g =>
      obtain ⟨m, rfl⟩ : ∃ m, n = m + 1 := ⟨n - 1, by omega⟩
      simp only [List.cons_append, pySplitFuel]
      rw [if_neg (by
        rw [newlines_succ]
        simp only [List.isPrefixOf, Bool.and_eq_true, beq_iff_eq, ne_eq, not_and]
        intro hcontra
        exact absurd hcontra.1.symm hxn)]
      simp only [List.append_eq]
      have hfe : g - xs.length - 1 = g + 1 - (x :: xs).length - 1 := by
        simp only [List.length_cons]
        omega
      rw [ih rest g (x :: acc) hxs hp (by simp at hf ⊢; omega), hfe]
      simp

lemma isPrefixOf_append_self : ∀ (l t : List Char), l.isPrefixOf (l ++ t) = true := by
  intro l t
  induction l with
  | nil => simp [List.isPrefixOf]
  | cons c cs ih => simp [List.isPrefixOf, ih]

lemma newlines_concat (n : Nat) (b : List Char) :
    newlines (n + 1) ++ b = newlines n ++ ('\n' :: b) := by
  simp [newlines, List.replicate_succ' n '\n', List.append_assoc]

lemma count_run_append (a b : List Char) (m : Nat) (ha : '\n' ∉ a) (hb : '\n' ∉ b) :
    List.count '\n' (a ++ newlines m ++ b) = m := by
  rw [List.count_append, List.count_append]
  rw [List.count_eq_zero.mpr ha, List.count_eq_zero.mpr hb]
  simp [newlines, List.count_replicate_self]

end Txt2Epub

namespace Txt2Epub

lemma tocNodes_append (l₁ l₂ : List TocEntry) :
    tocNodes (l₁ ++ l₂) = tocNodes l₁ ++ tocNodes l₂ := by
  induction l₁ with
  | nil => simp [tocNodes]
  | cons e es ih =>
    cases e <;> simp [tocNodes, ih, List.append_assoc]

/-- Invariant of the chapter loop: the nodes of the toc entries followed by
the nodes still held in current_section equal the nodes of the incoming
current_section followed by the spine pages (same elements, same order); the
loop emits only pages (never a nav entry); each block yields exactly one page
whose file name carries the 1-based original block index; in flat mode every
toc entry is a bare chapter, in section mode every toc entry is a flushed
section pair. -/
lemma buildChapters_spec (lang : List Char) (us : Bool) :
    ∀ (blocks : List (List Char)) (idx : Nat) (cur : Option (EpubHtml × List EpubHtml))
      (sp : List SpineItem) (tc : List TocEntry) (fin : Option (EpubHtml × List EpubHtml)),
      (us = false → cur = none) →
      buildChapters lang us idx cur blocks = .ok (sp, tc, fin) →
      tocNodes tc ++ curNodes fin = curNodes cur ++ spinePages sp ∧
      (us = false → fin = cur) ∧
      (∀ x ∈ sp, ∃ h, x = SpineItem.page h) ∧
      List.map EpubHtml.file_name (spinePages sp)
        = (List.range blocks.length).map (fun j => chapFileName (idx + j + 1)) ∧
      (us = false → ∀ e ∈ tc, ∃ c, e = TocEntry.chap c) ∧
      (us = true → ∀ e ∈ tc, ∃ s chs, e = TocEntry.sec s chs) := by
  intro blocks
  induction blocks with
  | nil =>
    intro idx cur sp tc fin hcur h
    simp only [buildChapters, Except.ok.injEq, Prod.mk.injEq] at h
    obtain ⟨h1, h2, h3⟩ := h
    subst h1
    subst h2
    subst h3
    simp [tocNodes, curNodes, spinePages]
  | cons blk blks ih =>
    intro idx cur sp tc fin hcur h
    simp only [buildChapters] at h
    cases hus : us with
    | false =>
      subst hus
      rw [if_neg (by simp)] at h
      rw [if_neg (by simp)] at h
      cases hrec : buildChapters lang false (idx + 1) cur blks with
      | error e => rw [hrec] at h; simp at h
      | ok trip =>
        obtain ⟨sp', tc', fin'⟩ := trip
        rw [hrec] at h
        simp only [Except.ok.injEq, Prod.mk.injEq] at h
        obtain ⟨h1, h2, h3⟩ := h
        subst h1
        subst h2
        subst h3
        obtain ⟨inv1, inv2, inv3, inv4, inv5, inv6⟩ := ih (idx + 1) cur sp' tc' fin' hcur hrec
        have hcn : cur = none := hcur rfl
        subst hcn
        simp only [curNodes, List.nil_append] at inv1
        refine ⟨?_, fun _ => inv2 rfl, ?_, ?_, ?_, fun hfalse => Bool.noConfusion hfalse⟩
        · simp [tocNodes, spinePages, curNodes, inv1]
        · intro x hx
          rcases List.mem_cons.mp hx with rfl | hx'
          · exact ⟨_, rfl⟩
          · exact inv3 x hx'
        · simp only [spinePages, List.map_cons, List.length_cons,
            List.range_succ_eq_map, List.map_map]
          refine List.cons_eq_cons.mpr ⟨rfl, ?_⟩
          rw [inv4]
          exact (List.map_congr_left (fun a _ => by
            simp only [Function.comp_apply]
            congr 1
            omega)).symm
        · intro _ e he
          rcases List.mem_cons.mp he with rfl | he'
          · exact ⟨_, rfl⟩
          · exact inv5 rfl e he'
    | true =>
      subst hus
      by_cases hmk : isMarkerLine ((splitLines (lstripNl blk)).headD []) = true
      · rw [if_pos (by rw [Bool.true_and]; exact hmk)] at h
        cases hft : findSectionTitle ((splitLines (lstripNl blk)).tail) with
        | none => rw [hft] at h; simp at h
        | some st =>
          rw [hft] at h
          dsimp only at h
          cases hrec : buildChapters lang true (idx + 1)
              (some (⟨st, chapFileName (idx + 1), lang, sectionHtml st⟩, [])) blks with
          | error e => rw [hrec] at h; simp at h
          | ok trip =>
            obtain ⟨sp', tc', fin'⟩ := trip
            rw [hrec] at h
            simp only [Except.ok.injEq, Prod.mk.injEq] at h
            obtain ⟨h1, h2, h3⟩ := h
            subst h1
            subst h2
            subst h3
            obtain ⟨inv1, _, inv3, inv4, _, inv6⟩ :=
              ih (idx + 1) _ sp' tc' fin' (fun hfalse => Bool.noConfusion hfalse) hrec
            simp only [curNodes, List.nil_append] at inv1
            refine ⟨?_, fun hfalse => Bool.noConfusion hfalse, ?_, ?_,
              fun hfalse => Bool.noConfusion hfalse, ?_⟩
            · cases cur with
              | none =>
                simp only [List.nil_append, curNodes]
                simp [tocNodes_append, spinePages, inv1]
              | some pair =>
                obtain ⟨s0, chs0⟩ := pair
                simp only [curNodes]
                simp [tocNodes_append, tocNodes, spinePages, List.append_assoc, inv1]
            · intro x hx
              rcases List.mem_cons.mp hx with rfl | hx'
              · exact ⟨_, rfl⟩
              · exact inv3 x hx'
            · simp only [spinePages, List.map_cons, List.length_cons,
                List.range_succ_eq_map, List.map_map]
              refine List.cons_eq_cons.mpr ⟨rfl, ?_⟩
              rw [inv4]
              exact (List.map_congr_left (fun a _ => by
                simp only [Function.comp_apply]
                congr 1
                omega)).symm
            · intro _ e he
              rcases List.mem_append.mp he with hfl | he'
              · cases cur with
                | none => simp at hfl
                | some pair =>
                  obtain ⟨s0, chs0⟩ := pair
                  simp only [List.mem_singleton] at hfl
                  exact ⟨s0, chs0, hfl⟩
              · exact inv6 rfl e he'
      · rw [if_neg (by rw [Bool.true_and]; exact hmk)] at h
        rw [if_pos rfl] at h
        cases cur with
        | none => simp at h
        | some pair =>
          obtain ⟨s0, chs0⟩ := pair
          dsimp only at h
          cases hrec : buildChapters lang true (idx + 1) (some (s0, chs0 ++
              [⟨(splitLines (lstripNl blk)).headD [], chapFileName (idx + 1), lang,
                chapterHtml ((splitLines (lstripNl blk)).headD [])
                  ((splitLines (lstripNl blk)).tail)⟩])) blks with
          | error e => rw [hrec] at h; simp at h
          | ok trip =>
            obtain ⟨sp', tc', fin'⟩ := trip
            rw [hrec] at h
            simp only [Except.ok.injEq, Prod.mk.injEq] at h
            obtain ⟨h1, h2, h3⟩ := h
            subst h1
            subst h2
            subst h3
            obtain ⟨inv1, _, inv3, inv4, _, inv6⟩ :=
              ih (idx + 1) _ sp' tc' fin' (fun hfalse => Bool.noConfusion hfalse) hrec
            refine ⟨?_, fun hfalse => Bool.noConfusion hfalse, ?_, ?_,
              fun hfalse => Bool.noConfusion hfalse, fun _ => inv6 rfl⟩
            · rw [inv1]
              simp [curNodes, spinePages, List.append_assoc]
            · intro x hx
              rcases List.mem_cons.mp hx with rfl | hx'
              · exact ⟨_, rfl⟩
              · exact inv3 x hx'
            · simp only [spinePages, List.map_cons, List.length_cons,
                List.range_succ_eq_map, List.map_map]
              refine List.cons_eq_cons.mpr ⟨rfl, ?_⟩
              rw [inv4]
              exact (List.map_congr_left (fun a _ => by
                simp only [Function.comp_apply]
                congr 1
                omega)).symm

/-- Inversion of a successful conversion: the text split into a first block
and at least one more, the loop succeeded, and the output is assembled from
the loop results exactly as in the source. -/
lemma create_epub_ok_inv {bt ba bl : List Char} {lb : Nat} {text : List Char} {out : BookOutput}
    (h : create_epub bt ba bl lb text = .ok out) :
    ∃ first b bs sp tc fin,
      pySplit (newlines lb) text = first :: b :: bs ∧
      buildChapters bl (startsWithEq3 (lstripNl b)) 0 none (b :: bs) = .ok (sp, tc, fin) ∧
      out = ⟨messagePage bl first, startsWithEq3 (lstripNl b),
        .page (infoPage bt ba bl) :: .page (messagePage bl first) :: .nav :: sp,
        if startsWithEq3 (lstripNl b) then tc ++ [curToToc fin] else tc⟩ := by
  simp only [create_epub] at h
  split at h
  · exact absurd h (by simp)
  · split at h
    · exact absurd h (by simp)
    · rename_i first rest hsplit1
      cases rest with
      | nil => exact absurd h (by simp)
      | cons b bs =>
        dsimp only at h
        split at h
        · exact absurd h (by simp)
        · rename_i sp tc fin hrec
          simp only [Except.ok.injEq] at h
          exact ⟨first, b, bs, sp, tc, fin, hsplit1, hrec, h.symm⟩

lemma tocNodes_curToToc (fin : Option (EpubHtml × List EpubHtml)) :
    tocNodes [curToToc fin] = curNodes fin := by
  cases fin with
  | none => simp [curToToc, tocNodes, curNodes]
  | some pair =>
    obtain ⟨s, chs⟩ := pair
    simp [curToToc, tocNodes, curNodes]

lemma chapFileName_head (k : Nat) : (chapFileName k).head? = some 'c' := rfl

/-- Claim C1 is false as stated: at a point where the text contains exactly
N + 1 consecutive newlines a split DOES occur.  With N = 3, the text
a-4newlines-b, whose only newline run has length exactly 4 = N + 1, is split
into two blocks instead of being left whole. -/
theorem C1_counterexample :
    pySplit (newlines 3) "a\n\n\n\nb".data = ["a".data, '\n' :: "b".data] ∧
    pySplit (newlines 3) "a\n\n\n\nb".data ≠ ["a\n\n\n\nb".data] := by
  decide

/-- Claim C1 (amended): for every linebreaks value N at least 1 and texts
with a single newline run surrounded by newline-free chunks, a run of exactly
N - 1 newlines causes no split, while a run of N + 1 newlines does cause one
split there, consuming N newlines and leaving the remaining newline at the
start of the following block (for N at least 2; for N = 1 a run of two
newlines yields an empty block between the chunks). -/
theorem C1_split_exact_amended (n : Nat) (a b : List Char)
    (ha : '\n' ∉ a) (hb : '\n' ∉ b) :
    (0 < n → pySplit (newlines n) (a ++ newlines (n - 1) ++ b)
        = [a ++ newlines (n - 1) ++ b]) ∧
    (2 ≤ n → pySplit (newlines n) (a ++ newlines (n + 1) ++ b) = [a, '\n' :: b]) ∧
    (n = 1 → pySplit (newlines n) (a ++ newlines 2 ++ b) = [a, [], b]) := by
  refine ⟨?_, ?_, ?_⟩
  · intro hn
    unfold pySplit
    rw [pySplitFuel_of_occursIn_false (newlines n) _ _ [] le_rfl
      (occursIn_newlines_eq_false_of_count _ (by rw [count_run_append a b _ ha hb]; omega))]
    simp
  · intro hn
    unfold pySplit
    rw [List.append_assoc]
    rw [pySplitFuel_scan (by omega) a (newlines (n + 1) ++ b) _ [] ha
      (by rw [newlines_concat]; exact isPrefixOf_append_self _ _)
      (by simp [newlines_length])]
    have hdrop : (newlines (n + 1) ++ b).drop n = '\n' :: b := by
      rw [newlines_concat]
      have := List.drop_left (newlines n) ('\n' :: b)
      rwa [newlines_length] at this
    rw [hdrop]
    rw [pySplitFuel_of_occursIn_false (newlines n) ('\n' :: b) _ []
      (by simp [newlines_length]; omega)
      (occursIn_newlines_eq_false_of_count _ (by
        rw [List.count_cons]
        rw [List.count_eq_zero.mpr hb]
        simp
        omega))]
    simp
  · intro hn
    subst hn
    unfold pySplit
    rw [List.append_assoc]
    rw [pySplitFuel_scan (by omega) a (newlines 2 ++ b) _ [] ha
      (by rw [show (2 : Nat) = 1 + 1 from rfl, newlines_concat]
          exact isPrefixOf_append_self _ _)
      (by simp [newlines_length])]
    have hdrop : (newlines 2 ++ b).drop 1 = '\n' :: b := by
      simp [newlines, List.replicate_succ]
    rw [hdrop]
    rw [show ('\n' :: b) = [] ++ ('\n' :: b) from rfl]
    rw [pySplitFuel_scan (by omega) [] ('\n' :: b) _ [] (by simp)
      (by rw [show ('\n' :: b) = newlines 1 ++ b by simp [newlines]]
          exact isPrefixOf_append_self _ _)
      (by simp [newlines_length]; omega)]
    rw [show ('\n' :: b).drop 1 = b from rfl]
    rw [pySplitFuel_of_occursIn_false (newlines 1) b _ []
      (by simp [newlines_length])
      (occursIn_newlines_eq_false_of_count _ (by
        rw [List.count_eq_zero.mpr hb]; omega))]
    simp

/-- Witness for the amended claim C1 at N = 3 with chunks x and y: a run of
two newlines does not split, a run of four newlines splits into two blocks
with one newline left on the second. -/
theorem C1_split_exact_amended_witness :
    pySplit (newlines 3) ("x".data ++ newlines (3 - 1) ++ "y".data)
        = ["x".data ++ newlines (3 - 1) ++ "y".data] ∧
    pySplit (newlines 3) ("x".data ++ newlines (3 + 1) ++ "y".data)
        = ["x".data, '\n' :: "y".data] := by
  refine ⟨?_, ?_⟩
  · exact (C1_split_exact_amended 3 "x".data "y".data (by decide) (by decide)).1 (by decide)
  · exact (C1_split_exact_amended 3 "x".data "y".data (by decide) (by decide)).2.1 (by decide)

/-- Claim C2: on the text Hello-3newlines-Chapter One/Line A/Line B-3newlines-
Chapter Two/Line C with linebreaks = 3, the conversion succeeds with the
preamble body Hello, section mode disabled, and exactly two content nodes:
Chapter One with body lines Line A and Line B, and Chapter Two with body line
Line C, in that order in both spine and toc. -/
theorem C2_scenario :
    create_epub "T".data "A".data "en".data 3 flatDoc
      = .ok ⟨messagePage "en".data "Hello".data, false,
          [.page (infoPage "T".data "A".data "en".data),
            .page (messagePage "en".data "Hello".data), .nav,
            .page flatChapterOne, .page flatChapterTwo],
          [.chap flatChapterOne, .chap flatChapterTwo]⟩ := by
  decide

/-- Claim C9: when the text contains no occurrence of the N-newline
delimiter, segmentation yields a single block which is consumed whole as the
preamble, and create_epub then fails with an IndexError at the section-mode
check instead of producing an output package. -/
theorem C9_missing_block_error (bt ba bl : List Char) (lb : Nat) (text : List Char)
    (h : occursIn (newlines lb) text = false) :
    create_epub bt ba bl lb text = .error .indexError := by
  have hlb : ¬(lb = 0) := by
    intro h0
    subst h0
    cases text <;> simp [occursIn, newlines, List.isPrefixOf] at h
  have hsplit : pySplit (newlines lb) text = [text] := by
    unfold pySplit
    rw [pySplitFuel_of_occursIn_false (newlines lb) text text.length [] le_rfl h]
    simp
  simp [create_epub, hlb, hsplit]

lemma matchTail_concat (a : List Char) (ha : '\n' ∉ a) : matchTail (a ++ [')']) = some a := by
  unfold matchTail
  rw [if_pos ⟨List.getLast?_concat _, by rw [List.dropLast_concat]; exact ha⟩]
  rw [List.dropLast_concat]

lemma stemScan_through : ∀ (t pre r b : List Char), '(' ∉ t → '\n' ∉ t →
    matchTail r = some b →
    stemScan pre (t ++ '(' :: r) = some (pre.reverse ++ t, b) := by
  intro t
  induction t with
  | nil =>
    intro pre r b _ _ hmt
    simp [stemScan, hmt]
  | cons x xs ih =>
    intro pre r b hp hn hmt
    have hx1 : ¬(x = '(') := fun hc => hp (by simp [hc])
    have hx2 : ¬(x = '\n') := fun hc => hn (by simp [hc])
    have hp' : '(' ∉ xs := fun hc => hp (by simp [hc])
    have hn' : '\n' ∉ xs := fun hc => hn (by simp [hc])
    simp only [List.cons_append, stemScan]
    rw [if_neg hx1]
    dsimp only
    rw [if_neg hx2]
    simp only [List.append_eq]
    rw [ih (x :: pre) r b hp' hn' hmt]
    simp

lemma stemMatch_pattern (t a : List Char) (ht1 : '(' ∉ t) (ht2 : '\n' ∉ t)
    (ha : '\n' ∉ a) :
    stemMatch (t ++ '(' :: (a ++ [')'])) = some (t, a) := by
  have hform : t ++ '(' :: (a ++ [')']) = (t ++ '(' :: a) ++ [')'] := by simp
  unfold stemMatch
  rw [if_neg (by rw [hform, List.getLast?_concat]; simp)]
  exact stemScan_through t [] (a ++ [')']) a ht1 ht2 (matchTail_concat a ha)

lemma stemScan_none_of_no_paren : ∀ (u pre : List Char), '(' ∉ u → stemScan pre u = none := by
  intro u
  induction u with
  | nil => intro pre _; rfl
  | cons c r ih =>
    intro pre hu
    have hc : ¬(c = '(') := fun hcc => hu (by simp [hcc])
    have hr : '(' ∉ r := fun hcc => hu (by simp [hcc])
    by_cases hcn : c = '\n'
    · simp [stemScan, hc, hcn]
    · simp only [stemScan]
      rw [if_neg hc]
      dsimp only
      rw [if_neg hcn]
      exact ih (c :: pre) hr

lemma stemScan_none_of_last : ∀ (u pre : List Char), u.getLast? ≠ some ')' →
    stemScan pre u = none := by
  intro u
  induction u with
  | nil => intro pre _; rfl
  | cons c r ih =>
    intro pre hu
    have hr : r.getLast? ≠ some ')' := by
      cases r with
      | nil => simp
      | cons d ds => rwa [List.getLast?_cons_cons] at hu
    have hmt : matchTail r = none := by
      unfold matchTail
      rw [if_neg (fun hcond => hr hcond.1)]
    simp only [stemScan]
    by_cases hcp : c = '('
    · have hcn : ¬(c = '\n') := by rw [hcp]; decide
      rw [if_pos hcp, hmt]
      dsimp only
      rw [if_neg hcn]
      exact ih (c :: pre) hr
    · rw [if_neg hcp]
      dsimp only
      by_cases hcn : c = '\n'
      · rw [if_pos hcn]
      · rw [if_neg hcn]
        exact ih (c :: pre) hr

/-- Claim C7: with no explicit title or author, a stem of the shape
title(author) with a parenthesized trailing author (title free of opening
parentheses, both parts free of newlines) resolves to that title and author;
a stem with no opening parenthesis at all, or one that ends in neither a
closing parenthesis nor a newline, resolves to the whole stem as title and
the literal Unknown as author. -/
theorem C7_title_author :
    (∀ t a : List Char, '(' ∉ t → '\n' ∉ t → '\n' ∉ a →
      resolve_title_author (t ++ '(' :: (a ++ [')'])) none none = (t, a)) ∧
    (∀ s : List Char, '(' ∉ s →
      resolve_title_author s none none = (s, "Unknown".data)) ∧
    (∀ s : List Char, s.getLast? ≠ some ')' → s.getLast? ≠ some '\n' →
      resolve_title_author s none none = (s, "Unknown".data)) := by
  refine ⟨?_, ?_, ?_⟩
  · intro t a ht1 ht2 ha
    unfold resolve_title_author
    rw [stemMatch_pattern t a ht1 ht2 ha]
    rfl
  · intro s hs
    have hsm : stemMatch s = none := by
      unfold stemMatch
      apply stemScan_none_of_no_paren
      intro hmem
      apply hs
      by_cases hgl : s.getLast? = some '\n'
      · rw [if_pos hgl] at hmem
        exact List.dropLast_subset _ hmem
      · rwa [if_neg hgl] at hmem
    unfold resolve_title_author
    rw [hsm]
    rfl
  · intro s h1 h2
    have hsm : stemMatch s = none := by
      unfold stemMatch
      rw [if_neg h2]
      exact stemScan_none_of_last s [] h1
    unfold resolve_title_author
    rw [hsm]
    rfl

/-- Witness for claim C7: MyBook(Jane Doe) resolves to title MyBook and
author Jane Doe; PlainName resolves to itself with author Unknown. -/
theorem C7_title_author_witness :
    resolve_title_author ("MyBook".data ++ '(' :: ("Jane Doe".data ++ [')'])) none none
      = ("MyBook".data, "Jane Doe".data) ∧
    resolve_title_author "PlainName".data none none = ("PlainName".data, "Unknown".data) :=
  ⟨C7_title_author.1 "MyBook".data "Jane Doe".data (by decide) (by decide) (by decide),
    C7_title_author.2.1 "PlainName".data (by decide)⟩

/-- Claim C8: when no language is supplied and the detector fails (the
LangDetectException case, e.g. on a two-character input), the resolved
language is en and the failure is absorbed (resolution is total, nothing
propagates); when the detector succeeds its result is used. -/
theorem C8_language_fallback :
    resolve_language none none = "en".data ∧
    (∀ l : List Char, resolve_language none (some l) = l) :=
  ⟨rfl, fun _ => rfl⟩

/-- Claim C10: in section mode (first post-preamble block starts with three
or more equal signs) with that first block not being a full section marker
(its first line is not solely equal signs), the very first loop iteration
processes a content block while current_section is still empty and raises
IndexError, rather than rejecting the input or placing the node at top
level. -/
theorem C10_orphan_chapter_error (bt ba bl : List Char) (lb : Nat) (text : List Char)
    (pre b : List Char) (bs : List (List Char))
    (hsplit : pySplit (newlines lb) text = pre :: b :: bs)
    (hsec : startsWithEq3 (lstripNl b) = true)
    (hmk : isMarkerLine ((splitLines (lstripNl b)).headD []) = false) :
    create_epub bt ba bl lb text = .error .indexError := by
  have hlb : ¬(lb = 0) := by
    intro h0
    subst h0
    rw [show newlines 0 = [] from rfl] at hsplit
    rw [pySplit_nil_sep] at hsplit
    simp at hsplit
  have hbuild : buildChapters bl (startsWithEq3 (lstripNl b)) 0 none (b :: bs)
      = .error .indexError := by
    rw [hsec]
    simp only [buildChapters]
    rw [if_neg (by rw [Bool.true_and, hmk]; simp)]
    simp
  simp [create_epub, hlb, hsplit, hbuild]

/-- Witness for claim C10: the block after the preamble starts with three
equal signs but its first line is ===x, so section mode is on while the
block is a content block, and the conversion raises IndexError. -/
theorem C10_orphan_chapter_error_witness :
    startsWithEq3 (lstripNl "===x\nBody".data) = true ∧
    isMarkerLine ((splitLines (lstripNl "===x\nBody".data)).headD []) = false ∧
    create_epub "T".data "A".data "en".data 3 "Pre\n\n\n===x\nBody".data
      = Except.error PyError.indexError :=
  ⟨by decide, by decide,
    C10_orphan_chapter_error "T".data "A".data "en".data 3 "Pre\n\n\n===x\nBody".data
      "Pre".data "===x\nBody".data [] (by decide) (by decide) (by decide)⟩

/-- Claim C3: for every successful conversion, the nodes of the TOC form a
sublist of the pages of the spine (so every TOC node is in the spine and the
relative orders agree), and the preamble/message node never appears in the
TOC. -/
theorem C3_toc_in_spine (bt ba bl : List Char) (lb : Nat) (text : List Char) (out : BookOutput)
    (h : create_epub bt ba bl lb text = .ok out) :
    (tocNodes out.toc).Sublist (spinePages out.spine) ∧
    out.message ∉ tocNodes out.toc := by
  obtain ⟨first, b, bs, sp, tc, fin, _, hbuild, hout⟩ := create_epub_ok_inv h
  subst hout
  obtain ⟨inv1, inv2, _, inv4, _, _⟩ :=
    buildChapters_spec bl _ (b :: bs) 0 none sp tc fin (fun _ => rfl) hbuild
  simp only [curNodes, List.nil_append] at inv1
  have htoc : tocNodes (if startsWithEq3 (lstripNl b) = true
      then tc ++ [curToToc fin] else tc) = spinePages sp := by
    by_cases hs : startsWithEq3 (lstripNl b) = true
    · rw [if_pos hs, tocNodes_append, tocNodes_curToToc]
      exact inv1
    · rw [if_neg hs]
      have hfin : fin = none := inv2 (by
        cases hv : startsWithEq3 (lstripNl b) with
        | false => rfl
        | true => exact absurd hv hs)
      rw [hfin] at inv1
      simpa [curNodes] using inv1
  constructor
  · show (tocNodes _).Sublist (spinePages (_ :: _ :: SpineItem.nav :: sp))
    rw [htoc]
    simp only [spinePages]
    exact ((List.Sublist.refl _).cons _).cons _
  · intro hmem
    have hmem2 : messagePage bl first ∈ spinePages sp := by
      rw [← htoc]
      exact hmem
    have hfn : (messagePage bl first).file_name ∈
        List.map EpubHtml.file_name (spinePages sp) :=
      List.mem_map_of_mem _ hmem2
    rw [inv4] at hfn
    obtain ⟨j, _, hj⟩ := List.mem_map.mp hfn
    have hc : (chapFileName (0 + j + 1)).head? = some 'c' := chapFileName_head _
    rw [hj] at hc
    have hm : (messagePage bl first).file_name.head? = some 'm' := rfl
    exact absurd (hm.symm.trans hc) (by decide)

/-- Witness for claim C3 on the concrete flat document. -/
theorem C3_toc_in_spine_witness :
    (tocNodes flatOut.toc).Sublist (spinePages flatOut.spine) ∧
    flatOut.message ∉ tocNodes flatOut.toc :=
  C3_toc_in_spine "T".data "A".data "en".data 3 flatDoc flatOut (by decide)

/-- Claim C4: section mode is decided once for the whole document: the output
flag equals the check of the first post-preamble block (leading newlines
stripped, three or more equal signs at the start), and the flag governs the
entire toc uniformly: with the flag set no toc entry is a bare chapter, with
the flag unset every toc entry is a bare chapter. -/
theorem C4_section_mode_global (bt ba bl : List Char) (lb : Nat) (text : List Char)
    (pre b : List Char) (bs : List (List Char)) (out : BookOutput)
    (hsplit : pySplit (newlines lb) text = pre :: b :: bs)
    (h : create_epub bt ba bl lb text = .ok out) :
    out.use_section = startsWithEq3 (lstripNl b) ∧
    (out.use_section = true → ∀ e ∈ out.toc, ∀ c, e ≠ TocEntry.chap c) ∧
    (out.use_section = false → ∀ e ∈ out.toc, ∃ c, e = TocEntry.chap c) := by
  obtain ⟨first, b', bs', sp, tc, fin, hsplit', hbuild, hout⟩ := create_epub_ok_inv h
  have hb : pre :: b :: bs = first :: b' :: bs' := hsplit.symm.trans hsplit'
  simp only [List.cons.injEq] at hb
  obtain ⟨-, hb2, -⟩ := hb
  subst hb2
  subst hout
  obtain ⟨_, _, _, _, inv5, inv6⟩ :=
    buildChapters_spec bl _ (b :: bs') 0 none sp tc fin (fun _ => rfl) hbuild
  refine ⟨rfl, ?_, ?_⟩
  · intro hus e he c
    simp only [BookOutput.use_section] at hus
    simp only [BookOutput.toc, if_pos hus] at he
    rcases List.mem_append.mp he with h1 | h2
    · obtain ⟨s, chs, rfl⟩ := inv6 hus e h1
      simp
    · simp only [List.mem_singleton] at h2
      subst h2
      cases fin with
      | none => simp [curToToc]
      | some pair => obtain ⟨s0, chs0⟩ := pair; simp [curToToc]
  · intro hus e he
    simp only [BookOutput.use_section] at hus
    simp only [BookOutput.toc, hus, if_neg] at he
    exact inv5 hus e (by simpa using he)

/-- Witness for claim C4 on the concrete section document: its first
post-preamble block opens with five equal signs and section mode is on. -/
theorem C4_section_mode_global_witness :
    secOut.use_section = startsWithEq3 (lstripNl "=====\nAlpha".data) ∧
    secOut.use_section = true :=
  ⟨(C4_section_mode_global "T".data "A".data "en".data 3 secDoc "Pre".data
      "=====\nAlpha".data ["ChapterX\nBody".data] secOut (by decide) (by decide)).1,
    by decide⟩

/-- Claim C5: the pages the loop appends to the spine (everything after the
first three spine entries) carry file names chap_NN in order, where NN is the
1-based index of the originating block in the full post-preamble block
sequence, zero-padded to at least two digits; section-marker blocks consume
an index, so the numbering reflects original block position. -/
theorem C5_chapter_numbering (bt ba bl : List Char) (lb : Nat) (text : List Char)
    (pre : List Char) (rest : List (List Char)) (out : BookOutput)
    (hsplit : pySplit (newlines lb) text = pre :: rest)
    (h : create_epub bt ba bl lb text = .ok out) :
    List.map EpubHtml.file_name (spinePages (out.spine.drop 3))
      = (List.range rest.length).map (fun j => chapFileName (j + 1)) := by
  obtain ⟨first, b, bs, sp, tc, fin, hsplit', hbuild, hout⟩ := create_epub_ok_inv h
  have hb : pre :: rest = first :: b :: bs := hsplit.symm.trans hsplit'
  simp only [List.cons.injEq] at hb
  obtain ⟨-, hb2⟩ := hb
  subst hb2
  subst hout
  obtain ⟨_, _, _, inv4, _, _⟩ :=
    buildChapters_spec bl _ (b :: bs) 0 none sp tc fin (fun _ => rfl) hbuild
  show List.map EpubHtml.file_name (spinePages sp) = _
  rw [inv4]
  exact List.map_congr_left (fun a _ => by congr 1; omega)

/-- Witness for claim C5 on the concrete section document: the section-marker
block takes chap_01 and the chapter block takes chap_02. -/
theorem C5_chapter_numbering_witness :
    List.map EpubHtml.file_name (spinePages (secOut.spine.drop 3))
      = (List.range 2).map (fun j => chapFileName (j + 1)) :=
  C5_chapter_numbering "T".data "A".data "en".data 3 secDoc "Pre".data
    ["=====\nAlpha".data, "ChapterX\nBody".data] secOut (by decide) (by decide)

/-- Claim C6: for every successful conversion the spine starts with the
info/title page, then the preamble/message page, then the navigation
placeholder as the third entry; everything after those three entries is a
content or section page, so the navigation entry occurs exactly once and not
at the end. -/
theorem C6_spine_order (bt ba bl : List Char) (lb : Nat) (text : List Char) (out : BookOutput)
    (h : create_epub bt ba bl lb text = .ok out) :
    out.spine.take 3 = [.page (infoPage bt ba bl), .page out.message, .nav] ∧
    ∀ x ∈ out.spine.drop 3, ∃ hp, x = SpineItem.page hp := by
  obtain ⟨first, b, bs, sp, tc, fin, _, hbuild, hout⟩ := create_epub_ok_inv h
  subst hout
  obtain ⟨_, _, inv3, _, _, _⟩ :=
    buildChapters_spec bl _ (b :: bs) 0 none sp tc fin (fun _ => rfl) hbuild
  exact ⟨rfl, inv3⟩

/-- Witness for claim C6 on the concrete flat document. -/
theorem C6_spine_order_witness :
    flatOut.spine.take 3
      = [.page (infoPage "T".data "A".data "en".data), .page flatOut.message, .nav] ∧
    ∀ x ∈ flatOut.spine.drop 3, ∃ hp, x = SpineItem.page hp :=
  C6_spine_order "T".data "A".data "en".data 3 flatDoc flatOut (by decide)

/-- Witness for claim C9: the two-character text Hi has no three-newline run
and the conversion raises IndexError. -/
theorem C9_missing_block_error_witness :
    occursIn (newlines 3) "Hi".data = false ∧
    create_epub "T".data "A".data "en".data 3 "Hi".data = Except.error PyError.indexError :=
  ⟨by decide, C9_missing_block_error "T".data "A".data "en".data 3 "Hi".data (by decide)⟩

end Txt2Epub
